import Mathlib

/-!
Shallow embedding of the starship reentry simulator
(`src/App.js` and the ray-marching app variant in the unnamed source file).

The JavaScript source computes with IEEE doubles (host side) and GLSL
floats (shader side); the embedding idealises both as real numbers, which
is the reading the specification itself uses.  Division by zero, which
Lean defines as 0 while GLSL produces an infinity, only ever arises for
axis-aligned rays; all concrete inputs used below keep every direction
component nonzero so that the two conventions agree on them.
-/

namespace Reentry

/-- State published by the `Starship` component each frame
(`src/App.js`, `useState` initial value at line 253). -/
structure SimState where
  altitude : ℝ
  speed : ℝ
  effectiveHeat : ℝ

/-- Shielding factor `1 - magnetPower / 5` (`src/App.js` line 117). -/
noncomputable def reductionFactor (magnetPower : ℝ) : ℝ := 1 - magnetPower / 5

/-- One frame of the `Starship` `useFrame` physics step of `src/App.js`
lines 108-132 (identical to the ray-march variant of the unnamed file,
lines 796-818).  The early `return` when `altitude <= 0` leaves the
state untouched; otherwise density, heat and the Euler speed/altitude
update are computed exactly as in the source.  The conditional
`altitude > 0 ? ... : 0` on the speed is kept even though its else
branch is unreachable past the early return, mirroring the source. -/
noncomputable def step (magnetPower dt : ℝ) (s : SimState) : SimState :=
  if s.altitude ≤ 0 then s
  else
    let density := 1.225 * Real.exp (-s.altitude / 8400)
    let heatFlux := density * s.speed ^ 3
    let effectiveHeat := heatFlux * reductionFactor magnetPower * 0.000000000012
    let dragDeceleration := density * 0.81 * s.speed
    let computedSpeed := s.speed - (9.81 + dragDeceleration) * dt
    let newSpeed := if 0 < s.altitude then max computedSpeed 200 else 0
    let newAltitude := max (s.altitude - newSpeed * dt) 0
    { altitude := newAltitude, speed := newSpeed, effectiveHeat := effectiveHeat }

/-- Iterated frames: `stepN m dt n s` performs `n` physics steps. -/
noncomputable def stepN (magnetPower dt : ℝ) : ℕ → SimState → SimState
  | 0, s => s
  | n + 1, s => stepN magnetPower dt n (step magnetPower dt s)

/-- State of the quadratic-drag app variant (unnamed source file,
lines 43-95), which additionally publishes `plasmaFluxDensity`. -/
structure SimStateQ where
  altitude : ℝ
  speed : ℝ
  effectiveHeat : ℝ
  plasmaFluxDensity : ℝ

/-- One frame of the quadratic-drag `Starship` variant (unnamed source
file, lines 52-85): `F_drag = 0.5*density*speed^2*0.81*(50*10)`,
`a = -9.81 - F_drag/2e5`, then the same clamp and altitude update. -/
noncomputable def stepQuad (magnetPower dt : ℝ) (s : SimStateQ) : SimStateQ :=
  if s.altitude ≤ 0 then s
  else
    let density := 1.225 * Real.exp (-s.altitude / 8400)
    let plasmaFluxDensity := density * s.speed ^ 3
    let fDrag := 0.5 * density * s.speed ^ 2 * 0.81 * (50 * 10)
    let a := -9.81 - fDrag / 2e5
    let newSpeed := if 0 < s.altitude then max (s.speed + a * dt) 200 else 0
    let newAltitude := max (s.altitude - newSpeed * dt) 0
    let effectiveHeat := plasmaFluxDensity * reductionFactor magnetPower * 0.000000000012
    { altitude := newAltitude, speed := newSpeed,
      effectiveHeat := effectiveHeat, plasmaFluxDensity := plasmaFluxDensity }

/-- Three-component vector of reals, standing for GLSL `vec3`. -/
structure Vec3 where
  x : ℝ
  y : ℝ
  z : ℝ

instance : Add Vec3 := ⟨fun a b => ⟨a.x + b.x, a.y + b.y, a.z + b.z⟩⟩

instance : Sub Vec3 := ⟨fun a b => ⟨a.x - b.x, a.y - b.y, a.z - b.z⟩⟩

instance : SMul ℝ Vec3 := ⟨fun t v => ⟨t * v.x, t * v.y, t * v.z⟩⟩

/-- Componentwise minimum, GLSL `min` on `vec3`. -/
noncomputable def vmin (a b : Vec3) : Vec3 := ⟨min a.x b.x, min a.y b.y, min a.z b.z⟩

/-- Componentwise maximum, GLSL `max` on `vec3`. -/
noncomputable def vmax (a b : Vec3) : Vec3 := ⟨max a.x b.x, max a.y b.y, max a.z b.z⟩

/-- Euclidean length of a vector, GLSL `length`. -/
noncomputable def len (v : Vec3) : ℝ := Real.sqrt (v.x ^ 2 + v.y ^ 2 + v.z ^ 2)

/-- GLSL `normalize`: `v / length(v)`.  GLSL leaves the zero vector
undefined; the embedding inherits Lean's `x / 0 = 0` convention there,
yielding the zero vector. -/
noncomputable def glslNormalize (v : Vec3) : Vec3 :=
  ⟨v.x / len v, v.y / len v, v.z / len v⟩

/-- Ray direction of the ray-march fragment shader (unnamed source file,
line 690): `normalize(vPosition - rayOrigin)`, applied unconditionally. -/
noncomputable def rayDirOf (rayOrigin vPosition : Vec3) : Vec3 :=
  glslNormalize (vPosition - rayOrigin)

/-- Color ramp shared by both fragment shaders (`src/App.js` lines 39-47,
unnamed source file lines 724-730): the fixed plasma color
`vec3(128/255, 0, 128/255)` at or above the threshold, otherwise the
blue-to-red ramp `(t, 0, 1-t)` with
`t = (temperature - baseTemp)/(plasmaThreshold - baseTemp)`. -/
noncomputable def rampColor (baseTemp plasmaThreshold temperature : ℝ) : Vec3 :=
  if plasmaThreshold ≤ temperature then ⟨128 / 255, 0, 128 / 255⟩
  else
    ⟨(temperature - baseTemp) / (plasmaThreshold - baseTemp), 0,
      1 - (temperature - baseTemp) / (plasmaThreshold - baseTemp)⟩

/-- Temperature of the simple shader (`src/App.js` lines 33-37):
`baseTemp + effectiveHeat * exp(-length(p.xz)/3) * 1e6` with the uniform
defaults `baseTemp = 300` (only `effectiveHeat` is ever updated). -/
noncomputable def fragTemperature (effectiveHeat : ℝ) (p : Vec3) : ℝ :=
  300 + effectiveHeat * Real.exp (-Real.sqrt (p.x ^ 2 + p.z ^ 2) / 3) * 1e6

/-- Per-fragment color of the simple shader of `src/App.js`. -/
noncomputable def fragColor (effectiveHeat : ℝ) (p : Vec3) : Vec3 :=
  rampColor 300 3000 (fragTemperature effectiveHeat p)

/-- Temperature at a sample point of the ray-march shader (unnamed source
file, lines 717-721): horizontal decay scale 3, vertical decay scale 5
anchored at the bottom face y = -5, uniform defaults as shipped. -/
noncomputable def rmTemperature (effectiveHeat : ℝ) (p : Vec3) : ℝ :=
  300 + effectiveHeat * Real.exp (-Real.sqrt (p.x ^ 2 + p.z ^ 2) / 3)
      * Real.exp (-((p.y + 5) / 5)) * 1e6

/-- Per-sample color of the ray-march shader (unnamed source file,
lines 717-730). -/
noncomputable def sampleColorRM (effectiveHeat : ℝ) (p : Vec3) : Vec3 :=
  rampColor 300 3000 (rmTemperature effectiveHeat p)

/-- Slab-method ray-box intersection interval (unnamed source file,
lines 693-700): per-axis entry/exit times from `invDir = 1/rayDir`,
then `tmin = max` of the smaller roots and `tmax = min` of the bigger
roots. -/
noncomputable def slabInterval (rayOrigin rayDir boxHalfSize : Vec3) : ℝ × ℝ :=
  let invDir : Vec3 := ⟨1 / rayDir.x, 1 / rayDir.y, 1 / rayDir.z⟩
  let t0s : Vec3 := ⟨(-boxHalfSize.x - rayOrigin.x) * invDir.x,
                     (-boxHalfSize.y - rayOrigin.y) * invDir.y,
                     (-boxHalfSize.z - rayOrigin.z) * invDir.z⟩
  let t1s : Vec3 := ⟨(boxHalfSize.x - rayOrigin.x) * invDir.x,
                     (boxHalfSize.y - rayOrigin.y) * invDir.y,
                     (boxHalfSize.z - rayOrigin.z) * invDir.z⟩
  let tsmaller := vmin t0s t1s
  let tbigger := vmax t0s t1s
  (max (max tsmaller.x tsmaller.y) tsmaller.z,
    min (min tbigger.x tbigger.y) tbigger.z)

/-- The 200 colors sampled by the march loop (unnamed source file,
lines 707-731): sample `i` sits at `t = tmin + dt*i` with
`dt = (tmax - tmin)/200`, at position `rayOrigin + rayDir * t`. -/
noncomputable def marchColors (effectiveHeat : ℝ)
    (rayOrigin vPosition boxHalfSize : Vec3) : List Vec3 :=
  let rayDir := rayDirOf rayOrigin vPosition
  let ti := slabInterval rayOrigin rayDir boxHalfSize
  (List.range 200).map fun i : ℕ =>
    sampleColorRM effectiveHeat
      (rayOrigin + ((ti.1 + (ti.2 - ti.1) / 200 * (i : ℝ)) • rayDir))

/-- Running per-channel maximum over a list of colors starting from
`vec3(0.0)`, the `maxColor` accumulator of the march loop. -/
noncomputable def accColor (colors : List Vec3) : Vec3 :=
  colors.foldl vmax ⟨0, 0, 0⟩

/-- Whole fragment shader of the ray-march variant (unnamed source file,
lines 688-733): normalize the direction, intersect the slab interval,
discard (`none`) on an empty interval, otherwise accumulate the
per-channel maximum of the 200 sampled colors. -/
noncomputable def marchRM (effectiveHeat : ℝ)
    (rayOrigin vPosition boxHalfSize : Vec3) : Option Vec3 :=
  let rayDir := rayDirOf rayOrigin vPosition
  let ti := slabInterval rayOrigin rayDir boxHalfSize
  if ti.2 < 0 ∨ ti.1 > ti.2 then none
  else some (accColor (marchColors effectiveHeat rayOrigin vPosition boxHalfSize))

end Reentry

namespace Reentry

/-- Claim C2: for every input state with `altitude > 0`, every `dt > 0` and
every `magnetPower`, the speed produced by one integrator step is at least
the terminal velocity 200 m/s. -/
theorem step_speed_ge_terminal (m dt : ℝ) (s : SimState)
    (halt : 0 < s.altitude) (hdt : 0 < dt) :
    200 ≤ (step m dt s).speed := by
  simp only [step, if_neg (not_le.mpr halt), if_pos halt]
  exact le_max_right _ _

/-- Witness for C2 at altitude 120000, speed 7222.22, magnetPower 0, dt 1. -/
theorem step_speed_ge_terminal_witness :
    (0:ℝ) < 120000 ∧ (0:ℝ) < 1 ∧
      200 ≤ (step 0 1 ⟨120000, 7222.22, 0⟩).speed :=
  ⟨by norm_num, by norm_num,
    step_speed_ge_terminal 0 1 ⟨120000, 7222.22, 0⟩ (by norm_num) (by norm_num)⟩

/-- Helper: at nonpositive altitude the step leaves the state untouched. -/
theorem step_of_terminal (m dt : ℝ) (s : SimState) (h : s.altitude ≤ 0) :
    step m dt s = s := by
  simp only [step, if_pos h]

/-- Claim C1, counterexample: from the state (altitude 0, speed 200) one
step with dt = 1, magnetPower = 0 leaves the speed at 200, not 0, so the
resulting (altitude, speed) is not (0, 0). -/
theorem stepN_terminal_speed_not_zero :
    (stepN 0 1 1 ⟨0, 200, 0⟩).altitude = 0 ∧
      (stepN 0 1 1 ⟨0, 200, 0⟩).speed = 200 ∧ (200:ℝ) ≠ 0 := by
  refine ⟨?_, ?_, by norm_num⟩ <;>
    simp [stepN, step_of_terminal 0 1 ⟨0, 200, 0⟩ (le_refl 0)]

/-- Claim C1 as amended: for every state with altitude = 0, the step is a
no-op for every dt and magnetPower, so any number of repeated steps
returns the state unchanged, leaving (altitude, speed) = (0, entry speed);
the speed is not re-pinned to 0. -/
theorem stepN_terminal_noop (m dt : ℝ) (s : SimState) (h : s.altitude = 0) :
    ∀ n : ℕ, stepN m dt n s = s := by
  intro n
  induction n with
  | zero => rfl
  | succ k ih =>
    show stepN m dt k (step m dt s) = s
    rw [step_of_terminal m dt s (le_of_eq h), ih]

/-- Witness for the amended C1 at the state (0, 200, 0), five steps. -/
theorem stepN_terminal_noop_witness :
    (⟨0, 200, 0⟩ : SimState).altitude = 0 ∧
      stepN 3 0.5 5 ⟨0, 200, 0⟩ = ⟨0, 200, 0⟩ :=
  ⟨rfl, stepN_terminal_noop 3 0.5 ⟨0, 200, 0⟩ rfl 5⟩

/-- Claim C9: a step preserves the invariant altitude ≥ 0 ∧ speed ≥ 0 for
every dt ≥ 0 and every magnetPower, and the published altitude equals
max(altitude - newSpeed*dt, 0). -/
theorem step_preserves_invariant (m dt : ℝ) (s : SimState)
    (halt : 0 ≤ s.altitude) (hsp : 0 ≤ s.speed) (hdt : 0 ≤ dt) :
    0 ≤ (step m dt s).altitude ∧ 0 ≤ (step m dt s).speed ∧
      (step m dt s).altitude = max (s.altitude - (step m dt s).speed * dt) 0 := by
  by_cases h : s.altitude ≤ 0
  · rw [step_of_terminal m dt s h]
    have h0 : s.altitude = 0 := le_antisymm h halt
    refine ⟨halt, hsp, ?_⟩
    rw [h0, zero_sub, max_eq_right ?_]
    simpa using mul_nonneg hsp hdt
  · push_neg at h
    simp only [step, if_neg (not_le.mpr h), if_pos h]
    refine ⟨le_max_right _ _, ?_, trivial⟩
    have h200 : (0:ℝ) ≤ 200 := by norm_num
    exact le_trans h200 (le_max_right _ 200)

/-- Witness for C9 at the initial state, dt = 1, magnetPower = 2. -/
theorem step_preserves_invariant_witness :
    (0:ℝ) ≤ 120000 ∧ (0:ℝ) ≤ 7222.22 ∧ (0:ℝ) ≤ 1 ∧
      (0 ≤ (step 2 1 ⟨120000, 7222.22, 0⟩).altitude ∧
        0 ≤ (step 2 1 ⟨120000, 7222.22, 0⟩).speed ∧
        (step 2 1 ⟨120000, 7222.22, 0⟩).altitude =
          max ((⟨120000, 7222.22, 0⟩ : SimState).altitude
            - (step 2 1 ⟨120000, 7222.22, 0⟩).speed * 1) 0) :=
  ⟨by norm_num, by norm_num, by norm_num,
    step_preserves_invariant 2 1 ⟨120000, 7222.22, 0⟩
      (by norm_num) (by norm_num) (by norm_num)⟩

/-- Claim C10: while altitude > 0, the published effectiveHeat is computed
from the pre-step altitude and speed in both app variants:
`1.225 * exp(-altitude/8400) * speed^3 * (1 - magnetPower/5) * 1.2e-11`. -/
theorem step_effectiveHeat_from_prestate (m dt : ℝ) (s : SimState)
    (q : SimStateQ) (hs : 0 < s.altitude) (hq : 0 < q.altitude) :
    (step m dt s).effectiveHeat =
        1.225 * Real.exp (-s.altitude / 8400) * s.speed ^ 3
          * (1 - m / 5) * 1.2e-11 ∧
      (stepQuad m dt q).effectiveHeat =
        1.225 * Real.exp (-q.altitude / 8400) * q.speed ^ 3
          * (1 - m / 5) * 1.2e-11 := by
  constructor
  · simp only [step, if_neg (not_le.mpr hs), reductionFactor]
  · simp only [stepQuad, if_neg (not_le.mpr hq), reductionFactor]

/-- Witness for C10 at altitude 8400, speed 1, magnetPower 0, dt 1. -/
theorem step_effectiveHeat_from_prestate_witness :
    (0:ℝ) < 8400 ∧
      ((step 0 1 ⟨8400, 1, 0⟩).effectiveHeat =
          1.225 * Real.exp (-(8400:ℝ) / 8400) * (1:ℝ) ^ 3
            * (1 - 0 / 5) * 1.2e-11 ∧
        (stepQuad 0 1 ⟨8400, 1, 0, 0⟩).effectiveHeat =
          1.225 * Real.exp (-(8400:ℝ) / 8400) * (1:ℝ) ^ 3
            * (1 - 0 / 5) * 1.2e-11) :=
  ⟨by norm_num,
    step_effectiveHeat_from_prestate 0 1 ⟨8400, 1, 0⟩ ⟨8400, 1, 0, 0⟩
      (by norm_num) (by norm_num)⟩

/-- Claim C3: for magnetPower in [0,4] the reduction factor lies in
[0.2, 1], and for a fixed state (altitude > 0, speed ≥ 0) the
effectiveHeat published by a step is non-increasing in magnetPower. -/
theorem effectiveHeat_antitone_in_magnetPower (m m1 m2 dt : ℝ) (s : SimState)
    (hm0 : 0 ≤ m) (hm4 : m ≤ 4) (halt : 0 < s.altitude) (hsp : 0 ≤ s.speed)
    (h12 : m1 ≤ m2) :
    (0.2 ≤ reductionFactor m ∧ reductionFactor m ≤ 1) ∧
      (step m2 dt s).effectiveHeat ≤ (step m1 dt s).effectiveHeat := by
  constructor
  · constructor <;> simp only [reductionFactor] <;> linarith
  · simp only [step, if_neg (not_le.mpr halt), reductionFactor]
    have hflux : 0 ≤ 1.225 * Real.exp (-s.altitude / 8400) * s.speed ^ 3 :=
      mul_nonneg (mul_nonneg (by norm_num) (Real.exp_nonneg _))
        (pow_nonneg hsp 3)
    have hfac : 1 - m2 / 5 ≤ 1 - m1 / 5 := by linarith
    nlinarith [mul_le_mul_of_nonneg_left hfac hflux]

/-- Witness for C3 at magnetPower 2, state (100, 3), bounds m1 = 0 ≤ m2 = 1. -/
theorem effectiveHeat_antitone_in_magnetPower_witness :
    (0:ℝ) ≤ 2 ∧ (2:ℝ) ≤ 4 ∧ (0:ℝ) < 100 ∧ (0:ℝ) ≤ 3 ∧ (0:ℝ) ≤ 1 ∧
      ((0.2 ≤ reductionFactor 2 ∧ reductionFactor 2 ≤ 1) ∧
        (step 1 1 ⟨100, 3, 0⟩).effectiveHeat ≤
          (step 0 1 ⟨100, 3, 0⟩).effectiveHeat) :=
  ⟨by norm_num, by norm_num, by norm_num, by norm_num, by norm_num,
    effectiveHeat_antitone_in_magnetPower 2 0 1 1 ⟨100, 3, 0⟩
      (by norm_num) (by norm_num) (by norm_num) (by norm_num) (by norm_num)⟩

/-- Helper: subtraction of vectors is componentwise. -/
theorem Vec3.sub_def (a b : Vec3) : a - b = ⟨a.x - b.x, a.y - b.y, a.z - b.z⟩ := rfl

/-- Helper: addition of vectors is componentwise. -/
theorem Vec3.add_def (a b : Vec3) : a + b = ⟨a.x + b.x, a.y + b.y, a.z + b.z⟩ := rfl

/-- Helper: scalar multiplication of vectors is componentwise. -/
theorem Vec3.smul_def (t : ℝ) (v : Vec3) : t • v = ⟨t * v.x, t * v.y, t * v.z⟩ := rfl

/-- Claim C7: with effectiveHeat = 0 both shaders compute temperature =
baseTemp (300) at every sample point, hence t = 0 and the returned color is
pure blue (0, 0, 1), never the plasma color. -/
theorem fragColor_zero_heat_blue (p : Vec3) :
    fragTemperature 0 p = 300 ∧ rmTemperature 0 p = 300 ∧
      fragColor 0 p = ⟨0, 0, 1⟩ ∧ sampleColorRM 0 p = ⟨0, 0, 1⟩ ∧
      fragColor 0 p ≠ ⟨128 / 255, 0, 128 / 255⟩ ∧
      sampleColorRM 0 p ≠ ⟨128 / 255, 0, 128 / 255⟩ := by
  have hf : fragTemperature 0 p = 300 := by simp [fragTemperature]
  have hr : rmTemperature 0 p = 300 := by simp [rmTemperature]
  have hcf : fragColor 0 p = ⟨0, 0, 1⟩ := by
    rw [fragColor, hf, rampColor, if_neg (by norm_num)]
    norm_num
  have hcr : sampleColorRM 0 p = ⟨0, 0, 1⟩ := by
    rw [sampleColorRM, hr, rampColor, if_neg (by norm_num)]
    norm_num
  refine ⟨hf, hr, hcf, hcr, ?_, ?_⟩
  · rw [hcf]
    simp only [ne_eq, Vec3.mk.injEq, not_and]
    intro hx
    exfalso
    norm_num at hx
  · rw [hcr]
    simp only [ne_eq, Vec3.mk.injEq, not_and]
    intro hx
    exfalso
    norm_num at hx

/-- Witness for C7 at the origin sample point. -/
theorem fragColor_zero_heat_blue_witness :
    fragColor 0 ⟨0, 0, 0⟩ = ⟨0, 0, 1⟩ ∧ sampleColorRM 0 ⟨0, 0, 0⟩ = ⟨0, 0, 1⟩ :=
  ⟨(fragColor_zero_heat_blue ⟨0, 0, 0⟩).2.2.1,
    (fragColor_zero_heat_blue ⟨0, 0, 0⟩).2.2.2.1⟩

/-- Claim C4, counterexample: at the threshold the returned plasma color is
(128/255, 0, 128/255), which differs from the (0.502, 0, 0.502) stated by
the claim, since 128/255 is not equal to 0.502. -/
theorem rampColor_plasma_not_spec_constant :
    rampColor 300 3000 3000 = ⟨128 / 255, 0, 128 / 255⟩ ∧
      (⟨128 / 255, 0, 128 / 255⟩ : Vec3) ≠ ⟨0.502, 0, 0.502⟩ := by
  constructor
  · rw [rampColor, if_pos (le_refl _)]
  · simp only [ne_eq, Vec3.mk.injEq, not_and]
    intro hx
    exfalso
    norm_num at hx

/-- Claim C4 as amended: the color ramp has a hard discontinuity at the
plasma threshold: at or above it the color is exactly
(128/255, 0, 128/255) (the value the spec rounds to 0.502), below it the
ramp gives (t, 0, 1-t) with t = (temperature - 300)/(3000 - 300), and t
tends to 1 as the temperature approaches the threshold from below. -/
theorem rampColor_discontinuity (temp : ℝ) :
    (3000 ≤ temp → rampColor 300 3000 temp = ⟨128 / 255, 0, 128 / 255⟩) ∧
      (temp < 3000 → rampColor 300 3000 temp =
        ⟨(temp - 300) / (3000 - 300), 0, 1 - (temp - 300) / (3000 - 300)⟩) ∧
      Filter.Tendsto (fun x : ℝ => (x - 300) / (3000 - 300))
        (nhdsWithin 3000 (Set.Iio 3000)) (nhds 1) := by
  refine ⟨fun h => by rw [rampColor, if_pos h], fun h => ?_, ?_⟩
  · rw [rampColor, if_neg (not_le.mpr h)]
  · have hc : Filter.Tendsto (fun x : ℝ => (x - 300) / (3000 - 300))
        (nhds (3000 : ℝ)) (nhds ((3000 - 300) / (3000 - 300))) :=
      (Filter.Tendsto.sub_const Filter.tendsto_id 300).div_const _
    have h1 : ((3000 : ℝ) - 300) / (3000 - 300) = 1 := by norm_num
    rw [h1] at hc
    exact hc.mono_left nhdsWithin_le_nhds

/-- Witness for the amended C4 at the threshold temperature itself. -/
theorem rampColor_discontinuity_witness :
    (3000 : ℝ) ≤ 3000 ∧
      rampColor 300 3000 3000 = ⟨128 / 255, 0, 128 / 255⟩ :=
  ⟨le_refl _, (rampColor_discontinuity 3000).1 (le_refl _)⟩

/-- Claim C5: a ray whose slab-method interval is empty (tmax < 0 or
tmin > tmax) is discarded: the march emits `none` (fully transparent); the
discard branch never consults the heat-field sampler. -/
theorem marchRM_empty_interval_discards (eh : ℝ) (ro vp box : Vec3)
    (h : (slabInterval ro (rayDirOf ro vp) box).2 < 0 ∨
      (slabInterval ro (rayDirOf ro vp) box).1 >
        (slabInterval ro (rayDirOf ro vp) box).2) :
    marchRM eh ro vp box = none := by
  simp only [marchRM]
  rw [if_pos h]

/-- Helper: the difference vector used by the C5/C8 witnesses has length 3. -/
theorem len_witness_dir : len ⟨1, 2, 2⟩ = 3 := by
  rw [len]
  have h9 : ((1 : ℝ) ^ 2 + 2 ^ 2 + 2 ^ 2) = 3 ^ 2 := by norm_num
  rw [h9, Real.sqrt_sq (by norm_num : (0:ℝ) ≤ 3)]

/-- Helper: the witness ray of C5 misses the box with an empty interval. -/
theorem slab_witness_c5 :
    rayDirOf ⟨1000, 1000, 1000⟩ ⟨1001, 1002, 1002⟩ = ⟨1 / 3, 2 / 3, 2 / 3⟩ ∧
      slabInterval ⟨1000, 1000, 1000⟩ ⟨1 / 3, 2 / 3, 2 / 3⟩ ⟨50, 5, 50⟩ =
        (-1507.5, -2850) := by
  constructor
  · have hsub : (⟨1001, 1002, 1002⟩ - ⟨1000, 1000, 1000⟩ : Vec3) = ⟨1, 2, 2⟩ := by
      rw [Vec3.sub_def]
      norm_num
    rw [rayDirOf, hsub, glslNormalize, len_witness_dir]
  · simp only [slabInterval, vmin, vmax]
    norm_num [max_def, min_def]

/-- Witness for C5: the concrete miss ray is discarded by the march. -/
theorem marchRM_empty_interval_discards_witness :
    ((slabInterval ⟨1000, 1000, 1000⟩
        (rayDirOf ⟨1000, 1000, 1000⟩ ⟨1001, 1002, 1002⟩) ⟨50, 5, 50⟩).2 < 0 ∨
      (slabInterval ⟨1000, 1000, 1000⟩
        (rayDirOf ⟨1000, 1000, 1000⟩ ⟨1001, 1002, 1002⟩) ⟨50, 5, 50⟩).1 >
      (slabInterval ⟨1000, 1000, 1000⟩
        (rayDirOf ⟨1000, 1000, 1000⟩ ⟨1001, 1002, 1002⟩) ⟨50, 5, 50⟩).2) ∧
      marchRM 1 ⟨1000, 1000, 1000⟩ ⟨1001, 1002, 1002⟩ ⟨50, 5, 50⟩ = none := by
  have hcond : (slabInterval ⟨1000, 1000, 1000⟩
      (rayDirOf ⟨1000, 1000, 1000⟩ ⟨1001, 1002, 1002⟩) ⟨50, 5, 50⟩).2 < 0 ∨
      (slabInterval ⟨1000, 1000, 1000⟩
        (rayDirOf ⟨1000, 1000, 1000⟩ ⟨1001, 1002, 1002⟩) ⟨50, 5, 50⟩).1 >
      (slabInterval ⟨1000, 1000, 1000⟩
        (rayDirOf ⟨1000, 1000, 1000⟩ ⟨1001, 1002, 1002⟩) ⟨50, 5, 50⟩).2 := by
    rw [slab_witness_c5.1, slab_witness_c5.2]
    left
    norm_num
  exact ⟨hcond,
    marchRM_empty_interval_discards 1 ⟨1000, 1000, 1000⟩ ⟨1001, 1002, 1002⟩
      ⟨50, 5, 50⟩ hcond⟩

/-- Helper: normalizing a nonzero vector yields a unit-length vector. -/
theorem len_glslNormalize (v : Vec3) (h : v ≠ ⟨0, 0, 0⟩) :
    len (glslNormalize v) = 1 := by
  have hS : 0 < v.x ^ 2 + v.y ^ 2 + v.z ^ 2 := by
    rcases lt_or_eq_of_le (by positivity : (0:ℝ) ≤ v.x ^ 2 + v.y ^ 2 + v.z ^ 2)
      with h1 | h1
    · exact h1
    · exfalso
      have hx2 : v.x ^ 2 = 0 := by
        nlinarith [sq_nonneg v.x, sq_nonneg v.y, sq_nonneg v.z]
      have hy2 : v.y ^ 2 = 0 := by
        nlinarith [sq_nonneg v.x, sq_nonneg v.y, sq_nonneg v.z]
      have hz2 : v.z ^ 2 = 0 := by
        nlinarith [sq_nonneg v.x, sq_nonneg v.y, sq_nonneg v.z]
      refine h ?_
      have hx : v.x = 0 := (pow_eq_zero_iff (by norm_num : (2:ℕ) ≠ 0)).mp hx2
      have hy : v.y = 0 := (pow_eq_zero_iff (by norm_num : (2:ℕ) ≠ 0)).mp hy2
      have hz : v.z = 0 := (pow_eq_zero_iff (by norm_num : (2:ℕ) ≠ 0)).mp hz2
      rcases v with ⟨a, b, c⟩
      simp only at hx hy hz
      simp [hx, hy, hz]
  have hn : 0 < len v := by rw [len]; exact Real.sqrt_pos.mpr hS
  have hn2 : len v ^ 2 = v.x ^ 2 + v.y ^ 2 + v.z ^ 2 := by
    rw [len]; exact Real.sq_sqrt hS.le
  have key : (v.x / len v) ^ 2 + (v.y / len v) ^ 2 + (v.z / len v) ^ 2 = 1 := by
    field_simp
    linarith [hn2]
  show Real.sqrt ((v.x / len v) ^ 2 + (v.y / len v) ^ 2 + (v.z / len v) ^ 2) = 1
  rw [key, Real.sqrt_one]

/-- Claim C6, counterexample: when vPosition coincides with rayOrigin the
shader still runs: the computed ray direction is the zero vector (length
0, not a unit vector: GLSL normalize is undefined there, the embedding
follows Lean's division convention), and the march is not discarded, so no
guard precedes the slab intersection. -/
theorem rayDirOf_degenerate_unguarded :
    rayDirOf ⟨1, 2, 3⟩ ⟨1, 2, 3⟩ = ⟨0, 0, 0⟩ ∧
      len (rayDirOf ⟨1, 2, 3⟩ ⟨1, 2, 3⟩) ≠ 1 ∧
      marchRM 0 ⟨1, 2, 3⟩ ⟨1, 2, 3⟩ ⟨50, 5, 50⟩ ≠ none := by
  have hsub : (⟨1, 2, 3⟩ - ⟨1, 2, 3⟩ : Vec3) = ⟨0, 0, 0⟩ := by
    rw [Vec3.sub_def]; norm_num
  have hlen0 : len (⟨0, 0, 0⟩ : Vec3) = 0 := by
    rw [len]; norm_num
  have hdir : rayDirOf ⟨1, 2, 3⟩ ⟨1, 2, 3⟩ = ⟨0, 0, 0⟩ := by
    rw [rayDirOf, hsub, glslNormalize, hlen0]
    norm_num
  have hslab : slabInterval ⟨1, 2, 3⟩ (⟨0, 0, 0⟩ : Vec3) ⟨50, 5, 50⟩ = (0, 0) := by
    simp only [slabInterval, vmin, vmax]
    norm_num
  refine ⟨hdir, ?_, ?_⟩
  · rw [hdir, hlen0]
    norm_num
  · simp only [marchRM, hdir, hslab]
    rw [if_neg (by norm_num)]
    simp

/-- Claim C6 as amended: the shader normalizes the ray direction, giving a
unit vector whenever vPosition differs from rayOrigin, but contains no
guard for a near-zero-length direction: at vPosition = rayOrigin the
direction entering the slab intersection is the zero vector. -/
theorem rayDirOf_unit_unless_degenerate (ro vp : Vec3) :
    (vp - ro ≠ ⟨0, 0, 0⟩ → len (rayDirOf ro vp) = 1) ∧
      (vp = ro → rayDirOf ro vp = ⟨0, 0, 0⟩) := by
  constructor
  · intro hne
    rw [rayDirOf]
    exact len_glslNormalize _ hne
  · intro he
    subst he
    have hsub : (vp - vp : Vec3) = ⟨0, 0, 0⟩ := by
      rw [Vec3.sub_def]; norm_num
    have hlen0 : len (⟨0, 0, 0⟩ : Vec3) = 0 := by
      rw [len]; norm_num
    rw [rayDirOf, hsub, glslNormalize, hlen0]
    norm_num

/-- Witness for the amended C6 on the nondegenerate ray used for C5. -/
theorem rayDirOf_unit_unless_degenerate_witness :
    ((⟨1001, 1002, 1002⟩ - ⟨1000, 1000, 1000⟩ : Vec3) ≠ ⟨0, 0, 0⟩) ∧
      len (rayDirOf ⟨1000, 1000, 1000⟩ ⟨1001, 1002, 1002⟩) = 1 := by
  have hne : (⟨1001, 1002, 1002⟩ - ⟨1000, 1000, 1000⟩ : Vec3) ≠ ⟨0, 0, 0⟩ := by
    rw [Vec3.sub_def]
    simp only [ne_eq, Vec3.mk.injEq, not_and]
    intro hx
    exfalso
    norm_num at hx
  exact ⟨hne,
    (rayDirOf_unit_unless_degenerate ⟨1000, 1000, 1000⟩ ⟨1001, 1002, 1002⟩).1 hne⟩

/-- Helper: the x channel of a vmax fold is the max fold of the x channels. -/
theorem foldl_vmax_fst (l : List Vec3) (z : Vec3) :
    (l.foldl vmax z).x = (l.map Vec3.x).foldl max z.x := by
  induction l generalizing z with
  | nil => rfl
  | cons a t ih => exact ih (vmax z a)

/-- Helper: the y channel of a vmax fold is the max fold of the y channels. -/
theorem foldl_vmax_snd (l : List Vec3) (z : Vec3) :
    (l.foldl vmax z).y = (l.map Vec3.y).foldl max z.y := by
  induction l generalizing z with
  | nil => rfl
  | cons a t ih => exact ih (vmax z a)

/-- Helper: the z channel of a vmax fold is the max fold of the z channels. -/
theorem foldl_vmax_trd (l : List Vec3) (z : Vec3) :
    (l.foldl vmax z).z = (l.map Vec3.z).foldl max z.z := by
  induction l generalizing z with
  | nil => rfl
  | cons a t ih => exact ih (vmax z a)

/-- Helper: the seed is below a max fold. -/
theorem seed_le_foldl_max (l : List ℝ) (b : ℝ) : b ≤ l.foldl max b := by
  induction l generalizing b with
  | nil => exact le_refl b
  | cons a t ih => exact le_trans (le_max_left b a) (ih (max b a))

/-- Helper: every member is below a max fold. -/
theorem mem_le_foldl_max (l : List ℝ) : ∀ b a : ℝ, a ∈ l → a ≤ l.foldl max b := by
  induction l with
  | nil => intro b a ha; cases ha
  | cons c t ih =>
    intro b a ha
    rcases List.mem_cons.mp ha with h | h
    · subst h
      exact le_trans (le_max_right b a) (seed_le_foldl_max t (max b a))
    · exact ih (max b c) a h

/-- Helper: a max fold equals the seed or one of the members. -/
theorem foldl_max_mem (l : List ℝ) (b : ℝ) :
    l.foldl max b = b ∨ l.foldl max b ∈ l := by
  induction l generalizing b with
  | nil => exact Or.inl rfl
  | cons a t ih =>
    rcases ih (max b a) with h | h
    · rcases max_cases b a with ⟨he, _⟩ | ⟨he, _⟩
      · exact Or.inl (by rw [List.foldl_cons, h, he])
      · exact Or.inr (by rw [List.foldl_cons, h, he]; exact List.mem_cons_self a t)
    · exact Or.inr (List.mem_cons_of_mem a h)

/-- Helper: over a nonempty list of nonnegative reals, the max fold seeded
with 0 is attained by a member. -/
theorem foldl_max_zero_mem (l : List ℝ) (hne : l ≠ [])
    (hnn : ∀ a ∈ l, 0 ≤ a) : l.foldl max 0 ∈ l := by
  rcases foldl_max_mem l 0 with h | h
  · rcases l with _ | ⟨a, t⟩
    · exact absurd rfl hne
    · have h1 : a ≤ (a :: t).foldl max 0 :=
        mem_le_foldl_max (a :: t) 0 a (List.mem_cons_self a t)
      have h2 : 0 ≤ a := hnn a (List.mem_cons_self a t)
      have ha0 : a = 0 := le_antisymm (h ▸ h1) h2
      rw [h, ← ha0]
      exact List.mem_cons_self a t
  · exact h

/-- Helper: max on the reals is right-commutative. -/
theorem real_max_right_comm (a b c : ℝ) :
    max (max a b) c = max (max a c) b := by
  rw [max_assoc, max_comm b c, ← max_assoc]

/-- Helper: vmax is right-commutative. -/
theorem vmax_right_comm (u a b : Vec3) :
    vmax (vmax u a) b = vmax (vmax u b) a := by
  simp only [vmax, Vec3.mk.injEq]
  exact ⟨real_max_right_comm _ _ _, real_max_right_comm _ _ _,
    real_max_right_comm _ _ _⟩

/-- Helper: a vmax fold is invariant under permutation of the list. -/
theorem foldl_vmax_perm (l1 l2 : List Vec3) (p : l1.Perm l2) :
    ∀ z : Vec3, l1.foldl vmax z = l2.foldl vmax z := by
  induction p with
  | nil =>
    intro z
    rfl
  | cons a p ih =>
    intro z
    exact ih (vmax z a)
  | swap a b t =>
    intro z
    simp only [List.foldl_cons]
    rw [vmax_right_comm]
  | trans p q ih1 ih2 =>
    intro z
    exact (ih1 z).trans (ih2 z)

/-- Helper: with nonnegative effectiveHeat every sampled color has a
nonnegative red channel, zero green channel and nonnegative blue channel. -/
theorem sampleColorRM_channels (eh : ℝ) (heh : 0 ≤ eh) (p : Vec3) :
    0 ≤ (sampleColorRM eh p).x ∧ (sampleColorRM eh p).y = 0 ∧
      0 ≤ (sampleColorRM eh p).z := by
  have htemp : 300 ≤ rmTemperature eh p := by
    rw [rmTemperature]
    have hpos : 0 ≤ eh * Real.exp (-Real.sqrt (p.x ^ 2 + p.z ^ 2) / 3)
        * Real.exp (-((p.y + 5) / 5)) * 1e6 := by positivity
    linarith
  rw [sampleColorRM, rampColor]
  split_ifs with h
  · norm_num
  · push_neg at h
    refine ⟨div_nonneg (by linarith) (by norm_num), rfl, ?_⟩
    have hlt : (rmTemperature eh p - 300) / (3000 - 300) ≤ 1 := by
      rw [div_le_one (by norm_num : (0:ℝ) < 3000 - 300)]
      linarith
    linarith

/-- Claim C8: for every intersecting ray with nonnegative effectiveHeat the
march emits the vmax fold of exactly 200 sampled colors taken at even
spacing over the slab interval; each channel of the output bounds every
sample and is attained by some sample (it is the per-channel maximum), and
the accumulated color is invariant under any permutation of the sample
order. -/
theorem marchRM_perChannelMax (eh : ℝ) (ro vp box : Vec3) (heh : 0 ≤ eh)
    (hI : ¬ ((slabInterval ro (rayDirOf ro vp) box).2 < 0 ∨
      (slabInterval ro (rayDirOf ro vp) box).1 >
        (slabInterval ro (rayDirOf ro vp) box).2)) :
    (marchColors eh ro vp box).length = 200 ∧
      marchRM eh ro vp box = some (accColor (marchColors eh ro vp box)) ∧
      (∀ v ∈ marchColors eh ro vp box,
        v.x ≤ (accColor (marchColors eh ro vp box)).x ∧
        v.y ≤ (accColor (marchColors eh ro vp box)).y ∧
        v.z ≤ (accColor (marchColors eh ro vp box)).z) ∧
      ((∃ v ∈ marchColors eh ro vp box,
          v.x = (accColor (marchColors eh ro vp box)).x) ∧
        (∃ v ∈ marchColors eh ro vp box,
          v.y = (accColor (marchColors eh ro vp box)).y) ∧
        (∃ v ∈ marchColors eh ro vp box,
          v.z = (accColor (marchColors eh ro vp box)).z)) ∧
      (∀ l : List Vec3, (marchColors eh ro vp box).Perm l →
        accColor l = accColor (marchColors eh ro vp box)) := by
  have hlen : (marchColors eh ro vp box).length = 200 := by
    simp only [marchColors, List.length_map, List.length_range]
  have hne : marchColors eh ro vp box ≠ [] := by
    intro h
    rw [h] at hlen
    simp at hlen
  have hchan : ∀ v ∈ marchColors eh ro vp box, 0 ≤ v.x ∧ v.y = 0 ∧ 0 ≤ v.z := by
    intro v hv
    simp only [marchColors, List.mem_map] at hv
    obtain ⟨i, _, rfl⟩ := hv
    exact sampleColorRM_channels eh heh _
  have hax : (accColor (marchColors eh ro vp box)).x =
      ((marchColors eh ro vp box).map Vec3.x).foldl max 0 :=
    foldl_vmax_fst _ ⟨0, 0, 0⟩
  have hay : (accColor (marchColors eh ro vp box)).y =
      ((marchColors eh ro vp box).map Vec3.y).foldl max 0 :=
    foldl_vmax_snd _ ⟨0, 0, 0⟩
  have haz : (accColor (marchColors eh ro vp box)).z =
      ((marchColors eh ro vp box).map Vec3.z).foldl max 0 :=
    foldl_vmax_trd _ ⟨0, 0, 0⟩
  refine ⟨hlen, ?_, ?_, ⟨?_, ?_, ?_⟩, ?_⟩
  · simp only [marchRM]
    rw [if_neg hI]
  · intro v hv
    refine ⟨?_, ?_, ?_⟩
    · rw [hax]
      exact mem_le_foldl_max _ 0 v.x (List.mem_map_of_mem Vec3.x hv)
    · rw [hay]
      exact mem_le_foldl_max _ 0 v.y (List.mem_map_of_mem Vec3.y hv)
    · rw [haz]
      exact mem_le_foldl_max _ 0 v.z (List.mem_map_of_mem Vec3.z hv)
  · have hmem : ((marchColors eh ro vp box).map Vec3.x).foldl max 0 ∈
        (marchColors eh ro vp box).map Vec3.x := by
      refine foldl_max_zero_mem _ (by simpa using hne) ?_
      intro a ha
      obtain ⟨v, hv, rfl⟩ := List.mem_map.mp ha
      exact (hchan v hv).1
    obtain ⟨v, hv, he⟩ := List.mem_map.mp hmem
    exact ⟨v, hv, by rw [hax, he]⟩
  · have hmem : ((marchColors eh ro vp box).map Vec3.y).foldl max 0 ∈
        (marchColors eh ro vp box).map Vec3.y := by
      refine foldl_max_zero_mem _ (by simpa using hne) ?_
      intro a ha
      obtain ⟨v, hv, rfl⟩ := List.mem_map.mp ha
      exact le_of_eq (hchan v hv).2.1.symm
    obtain ⟨v, hv, he⟩ := List.mem_map.mp hmem
    exact ⟨v, hv, by rw [hay, he]⟩
  · have hmem : ((marchColors eh ro vp box).map Vec3.z).foldl max 0 ∈
        (marchColors eh ro vp box).map Vec3.z := by
      refine foldl_max_zero_mem _ (by simpa using hne) ?_
      intro a ha
      obtain ⟨v, hv, rfl⟩ := List.mem_map.mp ha
      exact (hchan v hv).2.2
    obtain ⟨v, hv, he⟩ := List.mem_map.mp hmem
    exact ⟨v, hv, by rw [haz, he]⟩
  · intro l hp
    exact (foldl_vmax_perm _ l hp ⟨0, 0, 0⟩).symm

/-- Helper: the difference vector of the C8 witness ray has length 3. -/
theorem len_witness_dir2 : len ⟨1, -2, 2⟩ = 3 := by
  rw [len]
  have h9 : ((1 : ℝ) ^ 2 + (-2) ^ 2 + 2 ^ 2) = 3 ^ 2 := by norm_num
  rw [h9, Real.sqrt_sq (by norm_num : (0:ℝ) ≤ 3)]

/-- Witness for C8 on a concrete ray hitting the box. -/
theorem marchRM_perChannelMax_witness :
    (0:ℝ) ≤ 0 ∧
      ¬ ((slabInterval ⟨0, 10, 0⟩ (rayDirOf ⟨0, 10, 0⟩ ⟨1, 8, 2⟩) ⟨50, 5, 50⟩).2 < 0 ∨
        (slabInterval ⟨0, 10, 0⟩ (rayDirOf ⟨0, 10, 0⟩ ⟨1, 8, 2⟩) ⟨50, 5, 50⟩).1 >
        (slabInterval ⟨0, 10, 0⟩ (rayDirOf ⟨0, 10, 0⟩ ⟨1, 8, 2⟩) ⟨50, 5, 50⟩).2) ∧
      marchRM 0 ⟨0, 10, 0⟩ ⟨1, 8, 2⟩ ⟨50, 5, 50⟩ =
        some (accColor (marchColors 0 ⟨0, 10, 0⟩ ⟨1, 8, 2⟩ ⟨50, 5, 50⟩)) := by
  have hsub : (⟨1, 8, 2⟩ - ⟨0, 10, 0⟩ : Vec3) = ⟨1, -2, 2⟩ := by
    rw [Vec3.sub_def]
    norm_num
  have hdir : rayDirOf ⟨0, 10, 0⟩ ⟨1, 8, 2⟩ = ⟨1 / 3, -2 / 3, 2 / 3⟩ := by
    rw [rayDirOf, hsub, glslNormalize, len_witness_dir2]
  have hslab : slabInterval ⟨0, 10, 0⟩ ⟨1 / 3, -2 / 3, 2 / 3⟩ ⟨50, 5, 50⟩ =
      (7.5, 22.5) := by
    simp only [slabInterval, vmin, vmax]
    norm_num [max_def, min_def]
  have hI : ¬ ((slabInterval ⟨0, 10, 0⟩
      (rayDirOf ⟨0, 10, 0⟩ ⟨1, 8, 2⟩) ⟨50, 5, 50⟩).2 < 0 ∨
      (slabInterval ⟨0, 10, 0⟩ (rayDirOf ⟨0, 10, 0⟩ ⟨1, 8, 2⟩) ⟨50, 5, 50⟩).1 >
      (slabInterval ⟨0, 10, 0⟩ (rayDirOf ⟨0, 10, 0⟩ ⟨1, 8, 2⟩) ⟨50, 5, 50⟩).2) := by
    rw [hdir, hslab]
    norm_num
  exact ⟨le_refl 0, hI,
    (marchRM_perChannelMax 0 ⟨0, 10, 0⟩ ⟨1, 8, 2⟩ ⟨50, 5, 50⟩ (le_refl 0) hI).2.1⟩

end Reentry
